import Mathlib

/-!
Shallow embedding of the travel-tales Step C preference-elicitation front-end.

Two source components are embedded:

* StepCContests (the contest page): the pure match selector pickNextMatch
  together with its comparators clusterSort, eloSort and the inline size
  comparator of the warm-up fallback.
* FinalPool (the final-pool page): the accepted/rejected derivation built from
  imageSort, the keep-count map keepByCluster, and the take/drop split.

Modelling conventions:

* JS numbers are modelled as rationals.  The source helper toNum coerces
  unknown JSON values with a fallback; in the embedding every field is already
  a total rational, so toNum is the identity and is inlined.
* A JS array sort with comparator cmp is modelled as a stable insertion sort
  with the relation cmp a b ≤ 0 (ECMAScript sorts are stable, as is
  List.insertionSort).  The comparators themselves are kept verbatim as
  rational-valued functions.
* The refinement double loop (for i, for j > i over the pool) is modelled as a
  left fold over the list of unordered index pairs in loop order, which is
  exactly allPairs of the pool list.
* String.localeCompare is modelled as code-point order on strings.
-/

namespace StepC

/-- Entry of the append-only match log, as in the StepCMatch source type. -/
structure StepCMatch where
  ts : String
  left_cluster_id : ℚ
  right_cluster_id : ℚ
  winner_cluster_id : ℚ
  deriving Repr, DecidableEq

/-- Per-cluster record, as in the StepCCluster source type of the contests page. -/
structure StepCCluster where
  cluster_id : ℚ
  cluster_name : String
  size : ℚ
  representatives : List String
  elo : ℚ
  games : ℚ
  wins : ℚ
  losses : ℚ
  win_rate : ℚ
  momentum : String
  ratio : ℚ
  keep_count : ℚ
  deriving Repr, DecidableEq

/-- Session snapshot, as in the StepCState source type. -/
structure StepCState where
  albumId : String
  max_matches : ℚ
  max_warmup_matches : ℚ
  total_images : ℚ
  total_matches : ℚ
  top3_streak : ℚ
  done : Bool
  stop_reason : Option String
  -- source field name: matches (a Lean keyword, hence renamed here)
  matchLog : List StepCMatch
  clusters : List StepCCluster
  deriving Repr, DecidableEq

/-- Result type of the match selector, as in the Matchup source type. -/
structure Matchup where
  leftId : ℚ
  rightId : ℚ
  reason : String
  deriving Repr, DecidableEq

/-- Size cap of the refinement top pool (source constant TOP_POOL = 8). -/
def TOP_POOL : Nat := 8

/-- Comparator clusterSort from the source: ascending cluster_id. -/
def clusterSort (a b : StepCCluster) : ℚ :=
  a.cluster_id - b.cluster_id

/-- Comparator eloSort from the source: elo descending, ties by clusterSort. -/
def eloSort (a b : StepCCluster) : ℚ :=
  if a.elo ≠ b.elo then b.elo - a.elo else clusterSort a b

/-- Inline comparator of the warm-up fallback: size descending, ties by clusterSort. -/
def sizeSort (a b : StepCCluster) : ℚ :=
  let sizeCmp := b.size - a.size
  if sizeCmp ≠ 0 then sizeCmp else clusterSort a b

/-- Sort relation induced by a rational-valued JS comparator: the sorted array
is ascending with respect to cmp, meaning cmp a b ≤ 0 along the list. -/
def sortRel {α : Type} (cmp : α → α → ℚ) (a b : α) : Prop :=
  cmp a b ≤ 0

instance sortRelDecidable {α : Type} (cmp : α → α → ℚ) : DecidableRel (sortRel cmp) :=
  fun a b => inferInstanceAs (Decidable (cmp a b ≤ 0))

/-- A JS Array.prototype.sort call with comparator cmp, modelled as a stable
sort with respect to the induced relation. -/
def jsSort {α : Type} (cmp : α → α → ℚ) (l : List α) : List α :=
  List.insertionSort (sortRel cmp) l

/-- Tie tolerance used by the refinement scan (source literal 1e-9). -/
def TOL : ℚ := 1 / 1000000000

/-- Selection score of an unordered candidate pair (source line computing
score = -Math.abs(elo_a - elo_b) + 15 / (1 + games_a + games_b)). -/
def pairScore (a b : StepCCluster) : ℚ :=
  -|a.elo - b.elo| + 15 / (1 + a.games + b.games)

/-- One iteration of the refinement double loop: update the best pair and its
recorded score exactly as the source loop body does.  Note that the tie branch
replaces the best pair but deliberately keeps the previously recorded score. -/
def refineStep (acc : Option (Matchup × ℚ)) (ab : StepCCluster × StepCCluster) :
    Option (Matchup × ℚ) :=
  let a := ab.1
  let b := ab.2
  let idA := min a.cluster_id b.cluster_id
  let idB := max a.cluster_id b.cluster_id
  let score := pairScore a b
  match acc with
  | none => some (⟨idA, idB, "Refinement (uncertainty sampling)"⟩, score)
  | some (best, bestScore) =>
    if bestScore + TOL < score then
      some (⟨idA, idB, "Refinement (uncertainty sampling)"⟩, score)
    else if |score - bestScore| ≤ TOL ∧
        (idA < best.leftId ∨ (idA = best.leftId ∧ idB < best.rightId)) then
      some (⟨idA, idB, "Refinement (uncertainty sampling)"⟩, bestScore)
    else
      acc

/-- Unordered pairs of a list in the order visited by the nested loops
for i in [0, n), for j in (i, n). -/
def allPairs {α : Type} : List α → List (α × α)
  | [] => []
  | x :: xs => (xs.map fun y => (x, y)) ++ allPairs xs

/-- Ids of the at most TOP_POOL clusters ranked by eloSort (elo descending,
ties by ascending cluster_id), as built by the refinement phase. -/
def topIds (clusters : List StepCCluster) : List ℚ :=
  ((jsSort eloSort clusters).take TOP_POOL).map fun c => c.cluster_id

/-- Refinement candidate set: clusters in the top pool or with games < 2. -/
def candidateClusters (clusters : List StepCCluster) : List StepCCluster :=
  clusters.filter fun c => decide (c.cluster_id ∈ topIds clusters) || decide (c.games < 2)

/-- Pool scanned by the refinement loop: the candidates, or the full cluster
list when fewer than two candidates remain. -/
def refinePool (clusters : List StepCCluster) : List StepCCluster :=
  let candidates := candidateClusters clusters
  if 2 ≤ candidates.length then candidates else clusters

/-- Refinement phase of pickNextMatch: fold the loop body over all unordered
pool pairs in loop order, starting from best = null, bestScore = -Infinity
(modelled by the none accumulator), and return the best matchup. -/
def refinePick (pool : List StepCCluster) : Option Matchup :=
  ((allPairs pool).foldl refineStep none).map Prod.fst

/-- Warm-up phase of pickNextMatch, given the id-sorted cluster list and the
focus (first unseen cluster): baseline is the eloSort-first cluster among those
already played (excluding the focus), falling back to the sizeSort-first
cluster excluding the focus; the focus is emitted in the left slot. -/
def warmupPick (clusters : List StepCCluster) (focus : StepCCluster) : Option Matchup :=
  let played := jsSort eloSort (clusters.filter fun c =>
    decide (c.cluster_id ≠ focus.cluster_id) && decide (0 < c.games))
  let fallbackPool := jsSort sizeSort (clusters.filter fun c =>
    decide (c.cluster_id ≠ focus.cluster_id))
  match played.head?.orElse fun _ => fallbackPool.head? with
  | none => none
  | some baseline => some ⟨focus.cluster_id, baseline.cluster_id, "Warm-up coverage"⟩

/-- Match selector pickNextMatch from the contests page.  The source first
copies and id-sorts the cluster array, returns null when the session is done or
fewer than two clusters exist, then branches: warm-up while some cluster has
games ≤ 0 and total_matches < max(1, max_warmup_matches); refinement otherwise. -/
def pickNextMatch (state : StepCState) : Option Matchup :=
  let clusters := jsSort clusterSort state.clusters
  if state.done = true ∨ clusters.length < 2 then none
  else
    let warmupCap := max 1 state.max_warmup_matches
    let unseen := clusters.filter fun c => decide (c.games ≤ 0)
    match unseen with
    | focus :: _ =>
      if state.total_matches < warmupCap then warmupPick clusters focus
      else refinePick (refinePool clusters)
    | [] => refinePick (refinePool clusters)

/-- Explicit-state translation of pickNextMatch.  The source spreads
state.clusters into a fresh array before the in-place id sort, and every other
in-place sort acts on arrays freshly produced by filter or spread, so no
mutation reaches the input state; the translation records that by returning the
final state next to the result. -/
def pickNextMatchSt (state : StepCState) : Option Matchup × StepCState :=
  let clustersCopy := state.clusters
  (pickNextMatch { state with clusters := clustersCopy }, state)

/-- Strict lexicographic order on id pairs, as used by the tie branch of the
refinement loop and by the specification of its tie-breaking. -/
def lexLt (x y : ℚ × ℚ) : Prop :=
  x.1 < y.1 ∨ (x.1 = y.1 ∧ x.2 < y.2)

instance lexLtDecidable (x y : ℚ × ℚ) : Decidable (lexLt x y) :=
  inferInstanceAs (Decidable (_ ∨ _))

/-- Order-normalized id pair of an unordered cluster pair. -/
def pairIds (p : StepCCluster × StepCCluster) : ℚ × ℚ :=
  (min p.1.cluster_id p.2.cluster_id, max p.1.cluster_id p.2.cluster_id)

/-- Matchup built by the refinement loop body for a given pool pair. -/
def mkRefineMatchup (p : StepCCluster × StepCCluster) : Matchup :=
  ⟨min p.1.cluster_id p.2.cluster_id, max p.1.cluster_id p.2.cluster_id,
    "Refinement (uncertainty sampling)"⟩

/-- Simplified loop body without the tie branch.  Because the loop visits the
pairs in ascending lexicographic id order, the tie branch of refineStep can
never fire, and the fold over refineStep agrees with the fold over this step;
this is proved below. -/
def greedyStep (acc : Option (Matchup × ℚ)) (ab : StepCCluster × StepCCluster) :
    Option (Matchup × ℚ) :=
  let score := pairScore ab.1 ab.2
  match acc with
  | none => some (mkRefineMatchup ab, score)
  | some (best, bestScore) =>
    if bestScore + TOL < score then some (mkRefineMatchup ab, score)
    else some (best, bestScore)

/-- Warm-up activity condition as the source computes it: some cluster has
games ≤ 0 and total_matches is below max(1, max_warmup_matches). -/
def warmupActive (state : StepCState) : Prop :=
  (∃ c ∈ state.clusters, c.games ≤ 0) ∧
    state.total_matches < max 1 state.max_warmup_matches

instance warmupActiveDecidable (state : StepCState) : Decidable (warmupActive state) :=
  inferInstanceAs (Decidable (_ ∧ _))

/-- Copy of the cluster array sorted by ascending cluster_id, as built on the
first line of pickNextMatch. -/
def sortedClusters (state : StepCState) : List StepCCluster :=
  jsSort clusterSort state.clusters

/-- Cluster record with only the fields that matter to the selector set. -/
def plainCluster (id elo games size : ℚ) : StepCCluster :=
  ⟨id, "", size, [], elo, games, 0, 0, 0, "", 0, 0⟩

/-- Tiny rational used to build scores that differ by less than the 1e-9 tie
tolerance of the refinement scan. -/
def tinyQ : ℚ := 1 / 10000000000

/-- Concrete refinement-phase state: three clusters, all with two games, whose
pairwise scores form a chain of sub-tolerance gaps (score differences of
6e-10 between lexicographically adjacent candidate pairs). -/
def chainState : StepCState :=
  ⟨"album", 12, 6, 0, 10, 0, false, none, [],
    [plainCluster 1 0 2 1, plainCluster 2 (18 * tinyQ) 2 1,
      plainCluster 3 (12 * tinyQ) 2 1]⟩

/-- Concrete warm-up state whose warm-up sub-budget is zero: two unseen
clusters and max_warmup_matches = 0. -/
def zeroWarmupState : StepCState :=
  ⟨"album", 12, 0, 0, 0, 0, false, none, [],
    [plainCluster 1 1500 0 5, plainCluster 2 1500 0 9]⟩

/-- Concrete session state with a single cluster. -/
def loneClusterState : StepCState :=
  ⟨"album", 12, 6, 0, 0, 0, false, none, [], [plainCluster 1 1500 0 5]⟩

/-- Companion of zeroWarmupState agreeing on every field the selector reads
but differing on max_matches, top3_streak and the album id. -/
def zeroWarmupStateAlt : StepCState :=
  ⟨"other", 40, 0, 0, 0, 7, false, none, [],
    [plainCluster 1 1500 0 5, plainCluster 2 1500 0 9]⟩

end StepC

namespace FinalPool

/-- Per-image record from Step B, as in the StepBImage source type. -/
structure StepBImage where
  path : String
  cluster_id : ℚ
  rank_in_cluster : ℚ
  deriving Repr, DecidableEq

/-- Step C cluster projection used by the final-pool page, as in its
StepCCluster source type.  keep_count is an integral image count. -/
structure StepCCluster where
  cluster_id : ℚ
  elo : ℚ
  ratio : ℚ
  keep_count : Int
  deriving Repr, DecidableEq

/-- String.localeCompare modelled as code-point order. -/
def localeCompare (a b : String) : ℚ :=
  if a < b then -1 else if b < a then 1 else 0

/-- Comparator imageSort from the source: rank_in_cluster ascending, ties by
localeCompare on path. -/
def imageSort (a b : StepBImage) : ℚ :=
  let r := a.rank_in_cluster - b.rank_in_cluster
  if r ≠ 0 then r else localeCompare a.path b.path

/-- Rows of one cluster, sorted by imageSort.  The source groups the globally
sorted rows by cluster id and stably re-sorts the group with imageSort, which
produces exactly the stable imageSort sort of the filtered rows. -/
def clusterRows (images : List StepBImage) (cid : ℚ) : List StepBImage :=
  StepC.jsSort imageSort (images.filter fun r => decide (r.cluster_id = cid))

/-- Keep-count map from the Step C clusters (source keepByCluster): every
record stores max(0, keep_count), later records with the same id overwriting
earlier ones, so a lookup finds the last matching record. -/
def keepByCluster (cs : List StepCCluster) (cid : ℚ) : Option Int :=
  (cs.reverse.find? fun c => decide (c.cluster_id = cid)).map fun c => max 0 c.keep_count

/-- Final keep count of a cluster: the looked-up value (0 when no record
exists) clamped into [0, number of rows], as on the final-pool page. -/
def keepFinal (cs : List StepCCluster) (images : List StepBImage) (cid : ℚ) : Int :=
  let rows := clusterRows images cid
  let keepRaw : Int := (keepByCluster cs cid).getD 0
  max 0 (min (rows.length : Int) keepRaw)

/-- Accepted rows of a cluster: the first keepFinal rows of the sorted rows. -/
def acceptedRows (cs : List StepCCluster) (images : List StepBImage) (cid : ℚ) :
    List StepBImage :=
  (clusterRows images cid).take (keepFinal cs images cid).toNat

/-- Rejected rows of a cluster: the remaining rows after the accepted ones. -/
def rejectedRows (cs : List StepCCluster) (images : List StepBImage) (cid : ℚ) :
    List StepBImage :=
  (clusterRows images cid).drop (keepFinal cs images cid).toNat

/-- Concrete image rows used to instantiate the final-pool theorems. -/
def demoImages : List StepBImage :=
  [⟨"b.jpg", 5, 2⟩, ⟨"a.jpg", 5, 1⟩, ⟨"c.jpg", 5, 3⟩, ⟨"x.jpg", 4, 1⟩]

/-- Concrete Step C cluster records used to instantiate the final-pool
theorems: cluster 5 keeps two images, cluster 4 has a negative keep count. -/
def demoClusters : List StepCCluster :=
  [⟨5, 1600, 1, 2⟩, ⟨4, 1400, 0, -3⟩]

end FinalPool

namespace StepC

/-- Unfolding of the id comparator relation. -/
lemma sortRel_clusterSort_iff (a b : StepCCluster) :
    sortRel clusterSort a b ↔ a.cluster_id ≤ b.cluster_id := by
  simp [sortRel, clusterSort, sub_nonpos]

/-- Unfolding of the rating comparator relation: elo descending, ties by id. -/
lemma sortRel_eloSort_iff (a b : StepCCluster) :
    sortRel eloSort a b ↔
      b.elo < a.elo ∨ (a.elo = b.elo ∧ a.cluster_id ≤ b.cluster_id) := by
  simp only [sortRel, eloSort, clusterSort]
  by_cases h : a.elo = b.elo
  · simp [h, sub_nonpos]
  · simp only [h, ne_eq, not_false_eq_true, if_true, ite_true, sub_nonpos]
    constructor
    · intro hle
      exact Or.inl (lt_of_le_of_ne hle fun hc => h hc.symm)
    · rintro (h1 | ⟨h1, -⟩)
      · exact le_of_lt h1
      · exact h1.elim

/-- Unfolding of the size comparator relation: size descending, ties by id. -/
lemma sortRel_sizeSort_iff (a b : StepCCluster) :
    sortRel sizeSort a b ↔
      b.size < a.size ∨ (a.size = b.size ∧ a.cluster_id ≤ b.cluster_id) := by
  simp only [sortRel, sizeSort, clusterSort]
  by_cases h : b.size - a.size = 0
  · have h' : a.size = b.size := by linarith
    simp only [h, ne_eq, not_true_eq_false, if_false, ite_false, sub_nonpos]
    constructor
    · intro hle; exact Or.inr ⟨h', hle⟩
    · rintro (h1 | ⟨-, h1⟩)
      · exact absurd h1 (by linarith)
      · exact h1
  · simp only [h, ne_eq, not_false_eq_true, if_true, ite_true, sub_nonpos]
    constructor
    · intro hle
      exact Or.inl (lt_of_le_of_ne hle fun hc => h (by rw [hc]; ring))
    · rintro (h1 | ⟨h1, -⟩)
      · exact le_of_lt h1
      · exact absurd (by rw [h1]; ring : b.size - a.size = 0) h

/-- Transitivity of the id comparator relation. -/
lemma sortRel_clusterSort_trans (a b c : StepCCluster)
    (hab : sortRel clusterSort a b) (hbc : sortRel clusterSort b c) :
    sortRel clusterSort a c := by
  rw [sortRel_clusterSort_iff] at hab hbc ⊢
  exact le_trans hab hbc

/-- Totality of the id comparator relation. -/
lemma sortRel_clusterSort_total (a b : StepCCluster) :
    sortRel clusterSort a b ∨ sortRel clusterSort b a := by
  rw [sortRel_clusterSort_iff, sortRel_clusterSort_iff]
  exact le_total a.cluster_id b.cluster_id

/-- Transitivity of the rating comparator relation. -/
lemma sortRel_eloSort_trans (a b c : StepCCluster)
    (hab : sortRel eloSort a b) (hbc : sortRel eloSort b c) :
    sortRel eloSort a c := by
  rw [sortRel_eloSort_iff] at hab hbc ⊢
  rcases hab with h1 | ⟨h1, h1'⟩ <;> rcases hbc with h2 | ⟨h2, h2'⟩
  · exact Or.inl (lt_trans h2 h1)
  · exact Or.inl (by rw [← h2]; exact h1)
  · exact Or.inl (by rw [h1]; exact h2)
  · exact Or.inr ⟨h1.trans h2, le_trans h1' h2'⟩

/-- Totality of the rating comparator relation. -/
lemma sortRel_eloSort_total (a b : StepCCluster) :
    sortRel eloSort a b ∨ sortRel eloSort b a := by
  rw [sortRel_eloSort_iff, sortRel_eloSort_iff]
  rcases lt_trichotomy a.elo b.elo with h | h | h
  · exact Or.inr (Or.inl h)
  · rcases le_total a.cluster_id b.cluster_id with hid | hid
    · exact Or.inl (Or.inr ⟨h, hid⟩)
    · exact Or.inr (Or.inr ⟨h.symm, hid⟩)
  · exact Or.inl (Or.inl h)

/-- Transitivity of the size comparator relation. -/
lemma sortRel_sizeSort_trans (a b c : StepCCluster)
    (hab : sortRel sizeSort a b) (hbc : sortRel sizeSort b c) :
    sortRel sizeSort a c := by
  rw [sortRel_sizeSort_iff] at hab hbc ⊢
  rcases hab with h1 | ⟨h1, h1'⟩ <;> rcases hbc with h2 | ⟨h2, h2'⟩
  · exact Or.inl (lt_trans h2 h1)
  · exact Or.inl (by rw [← h2]; exact h1)
  · exact Or.inl (by rw [h1]; exact h2)
  · exact Or.inr ⟨h1.trans h2, le_trans h1' h2'⟩

/-- Totality of the size comparator relation. -/
lemma sortRel_sizeSort_total (a b : StepCCluster) :
    sortRel sizeSort a b ∨ sortRel sizeSort b a := by
  rw [sortRel_sizeSort_iff, sortRel_sizeSort_iff]
  rcases lt_trichotomy a.size b.size with h | h | h
  · exact Or.inr (Or.inl h)
  · rcases le_total a.cluster_id b.cluster_id with hid | hid
    · exact Or.inl (Or.inr ⟨h, hid⟩)
    · exact Or.inr (Or.inr ⟨h.symm, hid⟩)
  · exact Or.inl (Or.inl h)

/-- A jsSort is a permutation of its input. -/
lemma jsSort_perm {α : Type} (cmp : α → α → ℚ) (l : List α) :
    (jsSort cmp l).Perm l :=
  List.perm_insertionSort (sortRel cmp) l

/-- A jsSort preserves length. -/
lemma jsSort_length {α : Type} (cmp : α → α → ℚ) (l : List α) :
    (jsSort cmp l).length = l.length :=
  List.length_insertionSort (sortRel cmp) l

/-- A jsSort is empty exactly when its input is. -/
lemma jsSort_eq_nil_iff {α : Type} (cmp : α → α → ℚ) (l : List α) :
    jsSort cmp l = [] ↔ l = [] := by
  constructor
  · intro h
    have := jsSort_length cmp l
    rw [h] at this
    exact List.length_eq_zero.mp this.symm
  · rintro rfl
    rfl

/-- A jsSort under a transitive total comparator relation is sorted. -/
lemma jsSort_sorted {α : Type} (cmp : α → α → ℚ)
    (htrans : ∀ a b c, sortRel cmp a b → sortRel cmp b c → sortRel cmp a c)
    (htotal : ∀ a b, sortRel cmp a b ∨ sortRel cmp b a)
    (l : List α) : (jsSort cmp l).Pairwise (sortRel cmp) := by
  haveI : IsTotal α (sortRel cmp) := ⟨htotal⟩
  haveI : IsTrans α (sortRel cmp) := ⟨htrans⟩
  exact List.sorted_insertionSort (sortRel cmp) l

/-- Head of a jsSort under a transitive total comparator relation: it is a
member of the list that every list element dominates. -/
lemma jsSort_head_spec {α : Type} (cmp : α → α → ℚ)
    (htrans : ∀ a b c, sortRel cmp a b → sortRel cmp b c → sortRel cmp a c)
    (htotal : ∀ a b, sortRel cmp a b ∨ sortRel cmp b a)
    (l : List α) (m : α) (h : (jsSort cmp l).head? = some m) :
    m ∈ l ∧ ∀ x ∈ l, sortRel cmp m x := by
  have hperm := jsSort_perm cmp l
  have hsorted := jsSort_sorted cmp htrans htotal l
  cases hms : jsSort cmp l with
  | nil => rw [hms] at h; simp at h
  | cons y ys =>
    rw [hms] at h hperm hsorted
    have hym : y = m := by simpa using h
    subst hym
    refine ⟨hperm.subset (List.mem_cons_self y ys), ?_⟩
    intro x hx
    have hx' : x ∈ y :: ys := hperm.symm.subset hx
    rcases List.mem_cons.mp hx' with rfl | hx''
    · rcases htotal x x with hxx | hxx <;> exact hxx
    · exact (List.pairwise_cons.mp hsorted).1 x hx''

/-- The jsSort of a nonempty list has a head. -/
lemma jsSort_head_exists {α : Type} (cmp : α → α → ℚ)
    (l : List α) (h : l ≠ []) : ∃ m, (jsSort cmp l).head? = some m := by
  cases hms : jsSort cmp l with
  | nil =>
    exfalso
    have := jsSort_length cmp l
    rw [hms] at this
    exact h (List.length_eq_zero.mp this.symm)
  | cons y ys => exact ⟨y, rfl⟩

/-- Sorting by clusterSort a list with pairwise distinct ids yields a list
whose ids are strictly increasing. -/
lemma jsSort_clusterSort_strict (cl : List StepCCluster)
    (hnodup : (cl.map StepCCluster.cluster_id).Nodup) :
    (jsSort clusterSort cl).Pairwise
      (fun a b => a.cluster_id < b.cluster_id) := by
  have hperm := jsSort_perm clusterSort cl
  have hsorted := jsSort_sorted clusterSort sortRel_clusterSort_trans
    sortRel_clusterSort_total cl
  have hnodup' : ((jsSort clusterSort cl).map StepCCluster.cluster_id).Nodup :=
    ((hperm.map StepCCluster.cluster_id).nodup_iff).mpr hnodup
  have hne : (jsSort clusterSort cl).Pairwise
      (fun a b => a.cluster_id ≠ b.cluster_id) :=
    List.pairwise_map.mp hnodup'
  refine (hsorted.and hne).imp ?_
  rintro a b ⟨hle, hne'⟩
  exact lt_of_le_of_ne ((sortRel_clusterSort_iff a b).mp hle) hne'

/-- Members of an unordered pair of allPairs are members of the list. -/
lemma mem_allPairs {α : Type} :
    ∀ {l : List α} {p : α × α}, p ∈ allPairs l → p.1 ∈ l ∧ p.2 ∈ l := by
  intro l
  induction l with
  | nil => intro p hp; simp [allPairs] at hp
  | cons x xs ih =>
    intro p hp
    rcases List.mem_append.mp hp with hp1 | hp2
    · rcases List.mem_map.mp hp1 with ⟨y, hy, rfl⟩
      exact ⟨List.mem_cons_self x xs, List.mem_cons_of_mem x hy⟩
    · rcases ih hp2 with ⟨h1, h2⟩
      exact ⟨List.mem_cons_of_mem x h1, List.mem_cons_of_mem x h2⟩

/-- Pairwise relations of a list are inherited by its allPairs entries. -/
lemma allPairs_rel {α : Type} {R : α → α → Prop} :
    ∀ {l : List α}, l.Pairwise R → ∀ p ∈ allPairs l, R p.1 p.2 := by
  intro l
  induction l with
  | nil => intro _ p hp; simp [allPairs] at hp
  | cons x xs ih =>
    intro hpw p hp
    rcases List.pairwise_cons.mp hpw with ⟨hx, hxs⟩
    rcases List.mem_append.mp hp with hp1 | hp2
    · rcases List.mem_map.mp hp1 with ⟨y, hy, rfl⟩
      exact hx y hy
    · exact ih hxs p hp2

/-- A list with at least two elements has a nonempty allPairs. -/
lemma allPairs_ne_nil {α : Type} {l : List α} (h : 2 ≤ l.length) :
    allPairs l ≠ [] := by
  match l with
  | [] => simp at h
  | [a] => simp at h
  | a :: b :: xs => simp [allPairs]

/-- Order-normalized ids of a pair whose components are already id-ordered. -/
lemma pairIds_eq {a b : StepCCluster} (h : a.cluster_id < b.cluster_id) :
    pairIds (a, b) = (a.cluster_id, b.cluster_id) := by
  simp only [pairIds, min_eq_left h.le, max_eq_right h.le]

/-- The strict lexicographic order on id pairs is asymmetric. -/
lemma lexLt_asymm {x y : ℚ × ℚ} (h : lexLt x y) : ¬ lexLt y x := by
  rcases h with h | ⟨h1, h2⟩ <;> rintro (h' | ⟨h1', h2'⟩) <;> linarith

/-- The unordered pairs of a strictly id-sorted list are visited in strictly
increasing lexicographic order of their normalized id pairs. -/
lemma allPairs_pairwise_lex :
    ∀ {l : List StepCCluster},
      l.Pairwise (fun a b => a.cluster_id < b.cluster_id) →
      (allPairs l).Pairwise (fun p q => lexLt (pairIds p) (pairIds q)) := by
  intro l
  induction l with
  | nil => intro _; simp [allPairs]
  | cons x xs ih =>
    intro hpw
    rcases List.pairwise_cons.mp hpw with ⟨hx, hxs⟩
    rw [allPairs, List.pairwise_append]
    refine ⟨?_, ih hxs, ?_⟩
    · rw [List.pairwise_map]
      refine hxs.imp_of_mem ?_
      intro y y' hy hy' hlt
      rw [pairIds_eq (hx y hy), pairIds_eq (hx y' hy')]
      exact Or.inr ⟨rfl, hlt⟩
    · intro p hp q hq
      rcases List.mem_map.mp hp with ⟨y, hy, rfl⟩
      rcases mem_allPairs hq with ⟨hq1, hq2⟩
      have hqlt : q.1.cluster_id < q.2.cluster_id := allPairs_rel hxs q hq
      have hq' : pairIds q = (q.1.cluster_id, q.2.cluster_id) := pairIds_eq hqlt
      rw [pairIds_eq (hx y hy), hq']
      exact Or.inl (hx q.1 hq1)

end StepC

namespace StepC

/-- The loop body never discards an already-found best pair and always finds
one on its first visit. -/
lemma refineStep_isSome (acc : Option (Matchup × ℚ)) (ab : StepCCluster × StepCCluster) :
    (refineStep acc ab).isSome = true := by
  rcases acc with _ | ⟨best, bestScore⟩
  · rfl
  · simp only [refineStep]
    split_ifs <;> rfl

/-- A fold of the loop body over a nonempty pair list yields a best pair, and
it preserves one that already exists. -/
lemma foldl_refineStep_isSome :
    ∀ (l : List (StepCCluster × StepCCluster)) (acc : Option (Matchup × ℚ)),
      acc.isSome = true ∨ l ≠ [] → ((l.foldl refineStep acc).isSome) = true := by
  intro l
  induction l with
  | nil =>
    intro acc h
    rcases h with h | h
    · simpa using h
    · exact absurd rfl h
  | cons p ps ih =>
    intro acc _
    rw [List.foldl_cons]
    exact ih (refineStep acc p) (Or.inl (refineStep_isSome acc p))

/-- Every best pair produced by the loop body carries the refinement reason. -/
lemma foldl_refineStep_reason :
    ∀ (l : List (StepCCluster × StepCCluster)) (acc : Option (Matchup × ℚ)),
      (∀ b0 s0, acc = some (b0, s0) → b0.reason = "Refinement (uncertainty sampling)") →
      ∀ b s, l.foldl refineStep acc = some (b, s) →
        b.reason = "Refinement (uncertainty sampling)" := by
  intro l
  induction l with
  | nil =>
    intro acc hacc b s h
    exact hacc b s h
  | cons p ps ih =>
    intro acc hacc b s h
    rw [List.foldl_cons] at h
    refine ih (refineStep acc p) ?_ b s h
    intro b0 s0 hstep
    rcases acc with _ | ⟨best, bestScore⟩
    · simp only [refineStep] at hstep
      exact congrArg Matchup.reason (congrArg Prod.fst (Option.some.inj hstep)) ▸ rfl
    · simp only [refineStep] at hstep
      split_ifs at hstep
      · cases Option.some.inj hstep; rfl
      · cases Option.some.inj hstep; rfl
      · cases Option.some.inj hstep
        exact hacc _ _ rfl

/-- Under the lexicographic visiting order the tie branch of the loop body can
never fire, so folding refineStep agrees with folding the simplified
greedyStep. -/
lemma foldl_refineStep_eq_greedy :
    ∀ (l : List (StepCCluster × StepCCluster)) (acc : Option (Matchup × ℚ)),
      l.Pairwise (fun p q => lexLt (pairIds p) (pairIds q)) →
      (∀ b s, acc = some (b, s) →
        ∀ r ∈ l, ¬ lexLt (pairIds r) (b.leftId, b.rightId)) →
      l.foldl refineStep acc = l.foldl greedyStep acc := by
  intro l
  induction l with
  | nil => intro acc _ _; rfl
  | cons p ps ih =>
    intro acc hpw hacc
    rcases List.pairwise_cons.mp hpw with ⟨hp, hps⟩
    rw [List.foldl_cons, List.foldl_cons]
    have hstep : refineStep acc p = greedyStep acc p := by
      rcases acc with _ | ⟨best, bestScore⟩
      · rfl
      · simp only [refineStep, greedyStep, mkRefineMatchup]
        split_ifs with h1 h2
        · rfl
        · exfalso
          rcases h2 with ⟨-, h2⟩
          have hlex : lexLt (pairIds p) (best.leftId, best.rightId) := by
            simpa [pairIds, lexLt] using h2
          exact hacc best bestScore rfl p (List.mem_cons_self p ps) hlex
        · rfl
    rw [hstep]
    refine ih (greedyStep acc p) hps ?_
    intro b s hg r hr
    rcases acc with _ | ⟨best, bestScore⟩
    · simp only [greedyStep] at hg
      cases Option.some.inj hg
      have : lexLt (pairIds p) (pairIds r) := hp r hr
      simpa [mkRefineMatchup, pairIds] using lexLt_asymm this
    · simp only [greedyStep] at hg
      split_ifs at hg
      · cases Option.some.inj hg
        have : lexLt (pairIds p) (pairIds r) := hp r hr
        simpa [mkRefineMatchup, pairIds] using lexLt_asymm this
      · cases Option.some.inj hg
        exact hacc _ _ rfl r (List.mem_cons_of_mem p hr)

/-- A single greedy step never decreases the recorded score. -/
lemma greedyStep_mono (b0 : Matchup) (s0 : ℚ) (p : StepCCluster × StepCCluster) :
    ∃ b1 s1, greedyStep (some (b0, s0)) p = some (b1, s1) ∧ s0 ≤ s1 := by
  simp only [greedyStep]
  split_ifs with h1
  · refine ⟨mkRefineMatchup p, pairScore p.1 p.2, rfl, ?_⟩
    have hTOL : (0 : ℚ) ≤ TOL := by norm_num [TOL]
    linarith
  · exact ⟨b0, s0, rfl, le_refl _⟩

/-- Full characterization of the greedy fold: its best pair comes from the
visited pairs (or the initial accumulator), its recorded score bounds all
visited scores up to the tolerance, and the recorded score never decreases. -/
lemma foldl_greedyStep_spec :
    ∀ (l : List (StepCCluster × StepCCluster)) (acc : Option (Matchup × ℚ))
      (b : Matchup) (s : ℚ),
      l.foldl greedyStep acc = some (b, s) →
      ((∃ p ∈ l, b = mkRefineMatchup p ∧ s = pairScore p.1 p.2) ∨ acc = some (b, s)) ∧
      (∀ q ∈ l, pairScore q.1 q.2 ≤ s + TOL) ∧
      (∀ b0 s0, acc = some (b0, s0) → s0 ≤ s) := by
  intro l
  induction l with
  | nil =>
    intro acc b s h
    refine ⟨Or.inr h, ?_, ?_⟩
    · intro q hq; simp at hq
    · intro b0 s0 h0
      rw [h0] at h
      cases Option.some.inj h
      exact le_refl s
  | cons p ps ih =>
    intro acc b s h
    rw [List.foldl_cons] at h
    have hTOL : (0 : ℚ) ≤ TOL := by norm_num [TOL]
    rcases ih (greedyStep acc p) b s h with ⟨horig, hbound, hmono⟩
    have hstep_cases :
        greedyStep acc p = some (mkRefineMatchup p, pairScore p.1 p.2) ∨
        (greedyStep acc p = acc ∧
          ∀ b0 s0, acc = some (b0, s0) → pairScore p.1 p.2 ≤ s0 + TOL) := by
      rcases acc with _ | ⟨best, bestScore⟩
      · exact Or.inl rfl
      · simp only [greedyStep]
        split_ifs with h1
        · exact Or.inl rfl
        · refine Or.inr ⟨rfl, ?_⟩
          intro b0 s0 h0
          cases Option.some.inj h0
          push_neg at h1
          linarith
    constructor
    · rcases horig with h2 | h2
      · rcases h2 with ⟨q, hq, hq2⟩
        exact Or.inl ⟨q, List.mem_cons_of_mem p hq, hq2⟩
      · rcases hstep_cases with h3 | ⟨h3, -⟩
        · rw [h3] at h2
          cases Option.some.inj h2
          exact Or.inl ⟨p, List.mem_cons_self p ps, rfl, rfl⟩
        · rw [h3] at h2
          exact Or.inr h2
    refine ⟨?_, ?_⟩
    · intro q hq
      rcases List.mem_cons.mp hq with rfl | hq'
      · rcases hstep_cases with h3 | ⟨h3, h4⟩
        · have := hmono (mkRefineMatchup q) (pairScore q.1 q.2) h3
          linarith
        · rcases hacc_shape : acc with _ | ⟨b0, s0⟩
          · rw [hacc_shape] at h3
            simp only [greedyStep] at h3
            exact absurd h3 (by simp)
          · have hle := h4 b0 s0 hacc_shape
            have hs0 : s0 ≤ s := by
              apply hmono
              rw [h3, hacc_shape]
            linarith
      · exact hbound q hq'
    · intro b0 s0 h0
      subst h0
      obtain ⟨b1, s1, hg, hle⟩ := greedyStep_mono b0 s0 p
      exact le_trans hle (hmono b1 s1 hg)

end StepC

namespace StepC

/-- Characterization of a successful refinement scan over a strictly id-sorted
pool: the result is the normalized pair of some visited pool pair whose score
is within the tolerance of every visited score. -/
lemma refinePick_spec (pool : List StepCCluster)
    (hs : pool.Pairwise (fun a b => a.cluster_id < b.cluster_id))
    (m : Matchup) (hm : refinePick pool = some m) :
    ∃ p, p ∈ allPairs pool ∧ m = mkRefineMatchup p ∧
      p.1.cluster_id < p.2.cluster_id ∧
      ∀ q ∈ allPairs pool, pairScore q.1 q.2 ≤ pairScore p.1 p.2 + TOL := by
  have hlex := allPairs_pairwise_lex hs
  have heq := foldl_refineStep_eq_greedy (allPairs pool) none hlex
    (by intro b s h; cases h)
  unfold refinePick at hm
  rw [heq] at hm
  rcases hfold : (allPairs pool).foldl greedyStep none with _ | ⟨b, s⟩
  · rw [hfold] at hm; cases hm
  · rw [hfold] at hm
    have hbm : b = m := by simpa using hm
    subst hbm
    obtain ⟨horig, hbound, -⟩ := foldl_greedyStep_spec (allPairs pool) none b s hfold
    rcases horig with ⟨p, hp, hb, hsc⟩ | habs
    · refine ⟨p, hp, hb, allPairs_rel hs p hp, ?_⟩
      intro q hq
      have hb' := hbound q hq
      rw [hsc] at hb'
      exact hb'
    · cases habs

/-- A successful refinement scan emits the refinement reason string. -/
lemma refinePick_reason (pool : List StepCCluster) (m : Matchup)
    (hm : refinePick pool = some m) :
    m.reason = "Refinement (uncertainty sampling)" := by
  unfold refinePick at hm
  rcases hfold : (allPairs pool).foldl refineStep none with _ | ⟨b, s⟩
  · rw [hfold] at hm; cases hm
  · rw [hfold] at hm
    have hbm : b = m := by simpa using hm
    subst hbm
    exact foldl_refineStep_reason (allPairs pool) none (by intro b0 s0 h; cases h) b s hfold

/-- pickNextMatch returns none when the session is done or fewer than two
clusters exist. -/
lemma pickNextMatch_none_of (state : StepCState)
    (h : state.done = true ∨ state.clusters.length < 2) :
    pickNextMatch state = none := by
  unfold pickNextMatch
  rw [if_pos]
  rwa [jsSort_length]

/-- pickNextMatch takes the refinement branch when the session is live, two or
more clusters exist, and the warm-up condition fails. -/
lemma pickNextMatch_eq_refine (state : StepCState)
    (hdone : state.done = false)
    (hlen : 2 ≤ state.clusters.length)
    (hnw : ¬ warmupActive state) :
    pickNextMatch state = refinePick (refinePool (sortedClusters state)) := by
  unfold pickNextMatch
  rw [if_neg]
  · cases hf : (sortedClusters state).filter (fun c => decide (c.games ≤ 0)) with
    | nil =>
      show (match (sortedClusters state).filter (fun c => decide (c.games ≤ 0)) with
        | focus :: _ =>
          if state.total_matches < max 1 state.max_warmup_matches then
            warmupPick (sortedClusters state) focus
          else refinePick (refinePool (sortedClusters state))
        | [] => refinePick (refinePool (sortedClusters state))) = _
      rw [hf]
    | cons focus rest =>
      have hfocus : focus ∈ state.clusters := by
        have h1 : focus ∈ (sortedClusters state).filter (fun c => decide (c.games ≤ 0)) := by
          rw [hf]; exact List.mem_cons_self focus rest
        have h2 := (List.mem_filter.mp h1).1
        exact (jsSort_perm clusterSort state.clusters).subset h2
      have hgames : focus.games ≤ 0 := by
        have h1 : focus ∈ (sortedClusters state).filter (fun c => decide (c.games ≤ 0)) := by
          rw [hf]; exact List.mem_cons_self focus rest
        simpa using (List.mem_filter.mp h1).2
      have hlt : ¬ state.total_matches < max 1 state.max_warmup_matches :=
        fun hlt => hnw ⟨⟨focus, hfocus, hgames⟩, hlt⟩
      show (match (sortedClusters state).filter (fun c => decide (c.games ≤ 0)) with
        | focus :: _ =>
          if state.total_matches < max 1 state.max_warmup_matches then
            warmupPick (sortedClusters state) focus
          else refinePick (refinePool (sortedClusters state))
        | [] => refinePick (refinePool (sortedClusters state))) = _
      rw [hf]
      exact if_neg hlt
  · rw [jsSort_length]
    push_neg
    refine ⟨by simp [hdone], hlen⟩

/-- pickNextMatch takes the warm-up branch when the session is live, two or
more clusters exist, and the warm-up condition holds; the focus is the head of
the unseen list. -/
lemma pickNextMatch_eq_warmup (state : StepCState)
    (hdone : state.done = false)
    (hlen : 2 ≤ state.clusters.length)
    (focus : StepCCluster) (rest : List StepCCluster)
    (hf : (sortedClusters state).filter (fun c => decide (c.games ≤ 0)) = focus :: rest)
    (hlt : state.total_matches < max 1 state.max_warmup_matches) :
    pickNextMatch state = warmupPick (sortedClusters state) focus := by
  unfold pickNextMatch
  rw [if_neg]
  · show (match (sortedClusters state).filter (fun c => decide (c.games ≤ 0)) with
      | focus :: _ =>
        if state.total_matches < max 1 state.max_warmup_matches then
          warmupPick (sortedClusters state) focus
        else refinePick (refinePool (sortedClusters state))
      | [] => refinePick (refinePool (sortedClusters state))) = _
    rw [hf]
    exact if_pos hlt
  · rw [jsSort_length]
    push_neg
    refine ⟨by simp [hdone], hlen⟩

/-- warmupPick succeeds as soon as some cluster has an id different from the
focus id. -/
lemma warmupPick_isSome (cl : List StepCCluster) (focus : StepCCluster)
    (hex : ∃ c ∈ cl, c.cluster_id ≠ focus.cluster_id) :
    (warmupPick cl focus).isSome = true := by
  have hfb : (cl.filter fun c => decide (c.cluster_id ≠ focus.cluster_id)) ≠ [] := by
    rcases hex with ⟨c, hc, hne⟩
    intro hnil
    have := List.filter_eq_nil_iff.mp hnil c hc
    simp [hne] at this
  rcases hple : (jsSort eloSort (cl.filter fun c =>
      decide (c.cluster_id ≠ focus.cluster_id) && decide (0 < c.games))).head? with _ | b
  · have hfb' : jsSort sizeSort (cl.filter fun c =>
        decide (c.cluster_id ≠ focus.cluster_id)) ≠ [] := by
      intro hnil
      exact hfb ((jsSort_eq_nil_iff _ _).mp hnil)
    obtain ⟨b, hb⟩ := jsSort_head_exists sizeSort _ hfb
    simp only [warmupPick, hple, Option.orElse, hb]
    rfl
  · simp only [warmupPick, hple, Option.orElse]
    rfl

/-- Characterization of a successful warm-up pick: the left slot is the focus
id and the baseline is either the eloSort-minimal played cluster or, when no
other cluster has played, the sizeSort-minimal cluster excluding the focus. -/
lemma warmupPick_spec (cl : List StepCCluster) (focus : StepCCluster) (m : Matchup)
    (hm : warmupPick cl focus = some m) :
    ∃ baseline, baseline ∈ cl ∧ baseline.cluster_id ≠ focus.cluster_id ∧
      m = ⟨focus.cluster_id, baseline.cluster_id, "Warm-up coverage"⟩ ∧
      ((0 < baseline.games ∧
          ∀ c ∈ cl, c.cluster_id ≠ focus.cluster_id → 0 < c.games →
            c.elo < baseline.elo ∨
              (baseline.elo = c.elo ∧ baseline.cluster_id ≤ c.cluster_id)) ∨
        ((∀ c ∈ cl, c.cluster_id ≠ focus.cluster_id → ¬ 0 < c.games) ∧
          ∀ c ∈ cl, c.cluster_id ≠ focus.cluster_id →
            c.size < baseline.size ∨
              (baseline.size = c.size ∧ baseline.cluster_id ≤ c.cluster_id))) := by
  rcases hple : (jsSort eloSort (cl.filter fun c =>
      decide (c.cluster_id ≠ focus.cluster_id) && decide (0 < c.games))).head? with _ | b
  · simp only [warmupPick, hple, Option.orElse] at hm
    have hplayed : (cl.filter fun c =>
        decide (c.cluster_id ≠ focus.cluster_id) && decide (0 < c.games)) = [] := by
      by_contra hne
      obtain ⟨y, hy⟩ := jsSort_head_exists eloSort _ hne
      rw [hple] at hy
      cases hy
    have hnone : ∀ c ∈ cl, c.cluster_id ≠ focus.cluster_id → ¬ 0 < c.games := by
      intro c hc hne hpos
      have := List.filter_eq_nil_iff.mp hplayed c hc
      simp [hne, hpos] at this
    rcases hfb : (jsSort sizeSort (cl.filter fun c =>
        decide (c.cluster_id ≠ focus.cluster_id))).head? with _ | b
    · rw [hfb] at hm
      cases hm
    · rw [hfb] at hm
      have hm' : Matchup.mk focus.cluster_id b.cluster_id "Warm-up coverage" = m :=
        Option.some.inj hm
      obtain ⟨hbmem, hbmin⟩ := jsSort_head_spec sizeSort
        sortRel_sizeSort_trans sortRel_sizeSort_total _ b hfb
      have hbcl : b ∈ cl := (List.mem_filter.mp hbmem).1
      have hbne : b.cluster_id ≠ focus.cluster_id := by
        have := (List.mem_filter.mp hbmem).2
        simpa using this
      refine ⟨b, hbcl, hbne, hm'.symm, Or.inr ⟨hnone, ?_⟩⟩
      intro c hc hne
      have hcf : c ∈ cl.filter fun c => decide (c.cluster_id ≠ focus.cluster_id) :=
        List.mem_filter.mpr ⟨hc, by simpa using hne⟩
      exact (sortRel_sizeSort_iff b c).mp (hbmin c hcf)
  · simp only [warmupPick, hple, Option.orElse] at hm
    have hm' : Matchup.mk focus.cluster_id b.cluster_id "Warm-up coverage" = m :=
      Option.some.inj hm
    obtain ⟨hbmem, hbmin⟩ := jsSort_head_spec eloSort
      sortRel_eloSort_trans sortRel_eloSort_total _ b hple
    have hbcl : b ∈ cl := (List.mem_filter.mp hbmem).1
    have hbprops := (List.mem_filter.mp hbmem).2
    have hbne : b.cluster_id ≠ focus.cluster_id := by
      simp only [Bool.and_eq_true, decide_eq_true_eq] at hbprops
      exact hbprops.1
    have hbpos : 0 < b.games := by
      simp only [Bool.and_eq_true, decide_eq_true_eq] at hbprops
      exact hbprops.2
    refine ⟨b, hbcl, hbne, hm'.symm, Or.inl ⟨hbpos, ?_⟩⟩
    intro c hc hne hpos
    have hcf : c ∈ cl.filter fun c =>
        decide (c.cluster_id ≠ focus.cluster_id) && decide (0 < c.games) :=
      List.mem_filter.mpr ⟨hc, by simp [hne, hpos]⟩
    exact (sortRel_eloSort_iff b c).mp (hbmin c hcf)

/-- The sorted copy is a permutation of the cluster list. -/
lemma sortedClusters_perm (state : StepCState) :
    (sortedClusters state).Perm state.clusters :=
  jsSort_perm clusterSort state.clusters

/-- The sorted copy has the length of the cluster list. -/
lemma sortedClusters_length (state : StepCState) :
    (sortedClusters state).length = state.clusters.length :=
  jsSort_length clusterSort state.clusters

/-- The sorted copy is ascending in cluster_id. -/
lemma sortedClusters_sorted (state : StepCState) :
    (sortedClusters state).Pairwise fun a b => a.cluster_id ≤ b.cluster_id := by
  refine (jsSort_sorted clusterSort sortRel_clusterSort_trans sortRel_clusterSort_total
    state.clusters).imp ?_
  intro a b h
  exact (sortRel_clusterSort_iff a b).mp h

/-- With pairwise distinct ids the sorted copy is strictly ascending. -/
lemma sortedClusters_strict (state : StepCState)
    (hnodup : (state.clusters.map StepCCluster.cluster_id).Nodup) :
    (sortedClusters state).Pairwise fun a b => a.cluster_id < b.cluster_id :=
  jsSort_clusterSort_strict state.clusters hnodup

/-- Head of a filter of an id-ascending list: a member satisfying the
predicate whose id is minimal among all satisfying members. -/
lemma head_filter_spec (cl : List StepCCluster)
    (hsorted : cl.Pairwise fun a b => a.cluster_id ≤ b.cluster_id)
    (p : StepCCluster → Bool) (focus : StepCCluster) (rest : List StepCCluster)
    (hf : cl.filter p = focus :: rest) :
    focus ∈ cl ∧ p focus = true ∧
      ∀ c ∈ cl, p c = true → focus.cluster_id ≤ c.cluster_id := by
  have hmemf : focus ∈ cl.filter p := by rw [hf]; exact List.mem_cons_self focus rest
  have hpw : (cl.filter p).Pairwise fun a b => a.cluster_id ≤ b.cluster_id :=
    List.Pairwise.sublist (List.filter_sublist cl) hsorted
  refine ⟨(List.mem_filter.mp hmemf).1, (List.mem_filter.mp hmemf).2, ?_⟩
  intro c hc hpc
  have hcf : c ∈ cl.filter p := List.mem_filter.mpr ⟨hc, hpc⟩
  rw [hf] at hcf hpw
  rcases List.mem_cons.mp hcf with rfl | hcr
  · exact le_refl _
  · exact (List.pairwise_cons.mp hpw).1 c hcr

/-- In a list of two or more clusters with pairwise distinct ids, some cluster
has an id different from any given value. -/
lemma exists_ne_id (cl : List StepCCluster)
    (hnodup : (cl.map StepCCluster.cluster_id).Nodup)
    (h2 : 2 ≤ cl.length) (x : ℚ) : ∃ c ∈ cl, c.cluster_id ≠ x := by
  match cl, h2 with
  | a :: b :: t, _ =>
    have hab : a.cluster_id ≠ b.cluster_id := by
      rw [List.map_cons, List.nodup_cons] at hnodup
      intro hc
      exact hnodup.1 (by rw [hc]; simp)
    by_cases hax : a.cluster_id = x
    · exact ⟨b, by simp, by rw [← hax]; exact fun hc => hab hc.symm⟩
    · exact ⟨a, by simp, hax⟩

/-- The refinement pool inherits a two-element lower bound from the clusters. -/
lemma refinePool_length (cl : List StepCCluster) (h2 : 2 ≤ cl.length) :
    2 ≤ (refinePool cl).length := by
  simp only [refinePool]
  split_ifs with h
  · exact h
  · exact h2

/-- The refinement pool is the candidate filter or the full list, so it keeps
pairwise properties of the cluster list. -/
lemma refinePool_pairwise {R : StepCCluster → StepCCluster → Prop}
    (cl : List StepCCluster) (h : cl.Pairwise R) : (refinePool cl).Pairwise R := by
  simp only [refinePool]
  split_ifs with hs
  · exact List.Pairwise.sublist (List.filter_sublist cl) h
  · exact h

/-- Members of the refinement pool are clusters of the list. -/
lemma refinePool_subset (cl : List StepCCluster) : ∀ c ∈ refinePool cl, c ∈ cl := by
  intro c hc
  simp only [refinePool] at hc
  split_ifs at hc with hs
  · exact (List.mem_filter.mp hc).1
  · exact hc

/-- A refinement scan over a pool of two or more clusters always succeeds. -/
lemma refinePick_isSome (pool : List StepCCluster) (h2 : 2 ≤ pool.length) :
    (refinePick pool).isSome = true := by
  unfold refinePick
  have := foldl_refineStep_isSome (allPairs pool) none (Or.inr (allPairs_ne_nil h2))
  rcases hfold : (allPairs pool).foldl refineStep none with _ | ⟨b, s⟩
  · rw [hfold] at this; cases this
  · rfl

end StepC

namespace StepC

/-- A successful pick implies a live session with at least two clusters. -/
lemma pickNextMatch_some_inv (state : StepCState) (m : Matchup)
    (hm : pickNextMatch state = some m) :
    state.done = false ∧ 2 ≤ state.clusters.length := by
  constructor
  · cases hdone : state.done
    · rfl
    · rw [pickNextMatch_none_of state (Or.inl hdone)] at hm
      cases hm
  · by_contra h
    push_neg at h
    rw [pickNextMatch_none_of state (Or.inr h)] at hm
    cases hm

/-- C3: pickNextMatch returns none exactly when the session is done or fewer
than two clusters exist; in a live session with at least two clusters (with
distinct ids, per the data-model invariant) it always returns a matchup, so
neither the missing-baseline branch nor an empty refinement scan is
reachable. -/
theorem C3_none_iff (state : StepCState)
    (hnodup : (state.clusters.map StepCCluster.cluster_id).Nodup) :
    pickNextMatch state = none ↔
      state.done = true ∨ state.clusters.length < 2 := by
  constructor
  · intro hnone
    by_contra hcon
    push_neg at hcon
    obtain ⟨hdone, hlen⟩ := hcon
    have hdone' : state.done = false := by
      cases hd : state.done
      · rfl
      · exact absurd hd hdone
    have hlen' : 2 ≤ state.clusters.length := hlen
    have hsome : (pickNextMatch state).isSome = true := by
      rcases hf : (sortedClusters state).filter (fun c => decide (c.games ≤ 0))
        with _ | ⟨focus, rest⟩
      · have hnw : ¬ warmupActive state := by
          rintro ⟨⟨c, hc, hg⟩, -⟩
          have hc' : c ∈ sortedClusters state := (sortedClusters_perm state).symm.subset hc
          have := List.filter_eq_nil_iff.mp hf c hc'
          simp [hg] at this
        rw [pickNextMatch_eq_refine state hdone' hlen' hnw]
        exact refinePick_isSome _ (refinePool_length _
          (by rw [sortedClusters_length]; exact hlen'))
      · by_cases hlt : state.total_matches < max 1 state.max_warmup_matches
        · rw [pickNextMatch_eq_warmup state hdone' hlen' focus rest hf hlt]
          have hnodup' : ((sortedClusters state).map StepCCluster.cluster_id).Nodup :=
            (((sortedClusters_perm state).map StepCCluster.cluster_id).nodup_iff).mpr hnodup
          exact warmupPick_isSome _ _ (exists_ne_id _ hnodup'
            (by rw [sortedClusters_length]; exact hlen') focus.cluster_id)
        · have hnw : ¬ warmupActive state := fun h => hlt h.2
          rw [pickNextMatch_eq_refine state hdone' hlen' hnw]
          exact refinePick_isSome _ (refinePool_length _
            (by rw [sortedClusters_length]; exact hlen'))
    rw [hnone] at hsome
    cases hsome
  · exact pickNextMatch_none_of state

/-- C3 witness: with a single cluster the selector returns none, and the
equivalence evaluates at this concrete state. -/
theorem C3_none_iff_witness :
    pickNextMatch loneClusterState = none ↔
      loneClusterState.done = true ∨ loneClusterState.clusters.length < 2 :=
  C3_none_iff loneClusterState (of_decide_eq_true (by with_unfolding_all rfl))

/-- C6: the selector reads only the cluster records, the done flag, the
total-match count and the warm-up budget, so two states agreeing on those
fields (in particular two equal states) receive the identical matchup; replays
of the same outcome sequence therefore see the identical pair sequence. -/
theorem C6_deterministic (s1 s2 : StepCState)
    (hc : s1.clusters = s2.clusters) (hd : s1.done = s2.done)
    (ht : s1.total_matches = s2.total_matches)
    (hw : s1.max_warmup_matches = s2.max_warmup_matches) :
    pickNextMatch s1 = pickNextMatch s2 := by
  unfold pickNextMatch
  rw [hc, hd, ht, hw]

/-- C6 witness: two concrete states differing in album id, match budget and
streak but agreeing on the fields the selector reads produce the same pick. -/
theorem C6_deterministic_witness :
    pickNextMatch zeroWarmupState = pickNextMatch zeroWarmupStateAlt :=
  C6_deterministic zeroWarmupState zeroWarmupStateAlt rfl rfl rfl rfl

/-- C7 amended: every matchup carries one of the two capitalized reason
strings, the warm-up branch always emits "Warm-up coverage", and the
refinement branch always emits "Refinement (uncertainty sampling)". -/
theorem C7_reason_strings (state : StepCState) (m : Matchup)
    (hm : pickNextMatch state = some m) :
    (m.reason = "Warm-up coverage" ∨
      m.reason = "Refinement (uncertainty sampling)") ∧
    (warmupActive state → m.reason = "Warm-up coverage") ∧
    (¬ warmupActive state → m.reason = "Refinement (uncertainty sampling)") := by
  obtain ⟨hdone, hlen⟩ := pickNextMatch_some_inv state m hm
  have hwarm : warmupActive state → m.reason = "Warm-up coverage" := by
    intro hw
    rcases hf : (sortedClusters state).filter (fun c => decide (c.games ≤ 0))
      with _ | ⟨focus, rest⟩
    · exfalso
      rcases hw.1 with ⟨c, hc, hg⟩
      have hc' : c ∈ sortedClusters state := (sortedClusters_perm state).symm.subset hc
      have := List.filter_eq_nil_iff.mp hf c hc'
      simp [hg] at this
    · rw [pickNextMatch_eq_warmup state hdone hlen focus rest hf hw.2] at hm
      obtain ⟨b, -, -, hmk, -⟩ := warmupPick_spec _ _ _ hm
      rw [hmk]
  have hrefine : ¬ warmupActive state →
      m.reason = "Refinement (uncertainty sampling)" := by
    intro hnw
    rw [pickNextMatch_eq_refine state hdone hlen hnw] at hm
    exact refinePick_reason _ m hm
  refine ⟨?_, hwarm, hrefine⟩
  by_cases hw : warmupActive state
  · exact Or.inl (hwarm hw)
  · exact Or.inr (hrefine hw)

/-- C7 witness: at the concrete warm-up state the selector emits the
capitalized warm-up reason string. -/
theorem C7_reason_strings_witness :
    ((⟨1, 2, "Warm-up coverage"⟩ : Matchup).reason = "Warm-up coverage" ∨
      (⟨1, 2, "Warm-up coverage"⟩ : Matchup).reason =
        "Refinement (uncertainty sampling)") ∧
    (warmupActive zeroWarmupState →
      (⟨1, 2, "Warm-up coverage"⟩ : Matchup).reason = "Warm-up coverage") ∧
    (¬ warmupActive zeroWarmupState →
      (⟨1, 2, "Warm-up coverage"⟩ : Matchup).reason =
        "Refinement (uncertainty sampling)") :=
  C7_reason_strings zeroWarmupState ⟨1, 2, "Warm-up coverage"⟩
    (of_decide_eq_true (by with_unfolding_all rfl))

/-- C7 counterexample: the reason strings produced by the selector are the
capitalized "Warm-up coverage" and "Refinement (uncertainty sampling)", not
the lowercase strings named by the claim. -/
theorem C7_counterexample :
    pickNextMatch zeroWarmupState = some ⟨1, 2, "Warm-up coverage"⟩ ∧
    pickNextMatch chainState =
      some ⟨2, 3, "Refinement (uncertainty sampling)"⟩ ∧
    ("Warm-up coverage" : String) ≠ "warm-up coverage" ∧
    ("Refinement (uncertainty sampling)" : String) ≠
      "refinement (uncertainty sampling)" := by
  refine ⟨?_, ?_, ?_, ?_⟩ <;> exact of_decide_eq_true (by with_unfolding_all rfl)

/-- C8: the explicit-state translation of pickNextMatch returns its input
state unchanged (the source only sorts fresh copies produced by spread and
filter), and its result component is exactly the pure selector value. -/
theorem C8_pure (state : StepCState) :
    (pickNextMatchSt state).2 = state ∧
    (pickNextMatchSt state).2.clusters = state.clusters ∧
    (pickNextMatchSt state).1 = pickNextMatch state :=
  ⟨rfl, rfl, rfl⟩

end StepC

namespace StepC

/-- The candidate filter keeps every cluster when at most TOP_POOL clusters
exist, since then all of them belong to the top pool. -/
lemma candidateClusters_of_short (cl : List StepCCluster) (h : cl.length ≤ TOP_POOL) :
    candidateClusters cl = cl := by
  unfold candidateClusters
  rw [List.filter_eq_self]
  intro c hc
  have hmem : c ∈ jsSort eloSort cl := (jsSort_perm eloSort cl).symm.subset hc
  have htake : (jsSort eloSort cl).take TOP_POOL = jsSort eloSort cl :=
    List.take_of_length_le (by rw [jsSort_length]; exact h)
  have htop : c.cluster_id ∈ topIds cl := by
    unfold topIds
    rw [htake]
    exact List.mem_map.mpr ⟨c, hmem, rfl⟩
  simp [htop]

/-- With between 2 and TOP_POOL clusters the refinement pool is the full
cluster list. -/
lemma refinePool_of_short (cl : List StepCCluster) (h2 : 2 ≤ cl.length)
    (h8 : cl.length ≤ TOP_POOL) : refinePool cl = cl := by
  simp only [refinePool, candidateClusters_of_short cl h8]
  rw [if_pos h2]

/-- C1 counterexample: in chainState the selector returns the candidate pair
(2, 3) although the candidate pair (1, 3) has a score within 1e-9 of it and is
lexicographically smaller, so ties within 1e-9 are not resolved toward the
lexicographically smallest pair. -/
theorem C1_counterexample :
    pickNextMatch chainState =
      some ⟨2, 3, "Refinement (uncertainty sampling)"⟩ ∧
    (plainCluster 1 0 2 1, plainCluster 3 (12 * tinyQ) 2 1) ∈
      allPairs (refinePool (sortedClusters chainState)) ∧
    (plainCluster 2 (18 * tinyQ) 2 1, plainCluster 3 (12 * tinyQ) 2 1) ∈
      allPairs (refinePool (sortedClusters chainState)) ∧
    |pairScore (plainCluster 2 (18 * tinyQ) 2 1) (plainCluster 3 (12 * tinyQ) 2 1) -
      pairScore (plainCluster 1 0 2 1) (plainCluster 3 (12 * tinyQ) 2 1)| ≤ TOL ∧
    lexLt ((1 : ℚ), (3 : ℚ)) ((2 : ℚ), (3 : ℚ)) ∧
    ¬ warmupActive chainState := by
  have hclusters : sortedClusters chainState = chainState.clusters :=
    List.Sorted.insertionSort_eq (of_decide_eq_true (by with_unfolding_all rfl))
  have hpool : refinePool (sortedClusters chainState) = chainState.clusters := by
    rw [hclusters]
    exact refinePool_of_short _ (by simp [chainState]) (by simp [chainState, TOP_POOL])
  have hpairs : allPairs (refinePool (sortedClusters chainState)) =
      [(plainCluster 1 0 2 1, plainCluster 2 (18 * tinyQ) 2 1),
        (plainCluster 1 0 2 1, plainCluster 3 (12 * tinyQ) 2 1),
        (plainCluster 2 (18 * tinyQ) 2 1, plainCluster 3 (12 * tinyQ) 2 1)] := by
    rw [hpool]
    rfl
  refine ⟨?_, ?_, ?_, ?_, ?_, ?_⟩
  · exact of_decide_eq_true (by with_unfolding_all rfl)
  · rw [hpairs]
    exact List.mem_cons_of_mem _ (List.mem_cons_self _ _)
  · rw [hpairs]
    exact List.mem_cons_of_mem _ (List.mem_cons_of_mem _ (List.mem_cons_self _ _))
  · exact of_decide_eq_true (by with_unfolding_all rfl)
  · exact of_decide_eq_true (by with_unfolding_all rfl)
  · exact of_decide_eq_true (by with_unfolding_all rfl)

/-- C1 amended: in the refinement phase the returned matchup is the
order-normalized pair of some candidate pool pair whose score is within 1e-9
of the score of every candidate pool pair; the scan keeps the earlier pair
unless a later one beats the recorded score by more than 1e-9, so the exact
maximizer and the lexicographically smallest tied pair need not be chosen. -/
theorem C1_refinement_scan (state : StepCState) (m : Matchup)
    (hdone : state.done = false)
    (hlen : 2 ≤ state.clusters.length)
    (hnodup : (state.clusters.map StepCCluster.cluster_id).Nodup)
    (hnw : ¬ warmupActive state)
    (hm : pickNextMatch state = some m) :
    m.leftId ≤ m.rightId ∧
    ∃ p, p ∈ allPairs (refinePool (sortedClusters state)) ∧
      p.1.cluster_id < p.2.cluster_id ∧
      m = mkRefineMatchup p ∧
      m.leftId = min p.1.cluster_id p.2.cluster_id ∧
      m.rightId = max p.1.cluster_id p.2.cluster_id ∧
      ∀ q ∈ allPairs (refinePool (sortedClusters state)),
        pairScore q.1 q.2 ≤ pairScore p.1 p.2 + TOL := by
  rw [pickNextMatch_eq_refine state hdone hlen hnw] at hm
  have hstrict := refinePool_pairwise (sortedClusters state)
    (sortedClusters_strict state hnodup)
  obtain ⟨p, hp, hb, hlt, hbound⟩ := refinePick_spec _ hstrict m hm
  refine ⟨?_, p, hp, hlt, hb, ?_, ?_, hbound⟩
  · rw [hb]
    exact min_le_max
  · rw [hb]
    rfl
  · rw [hb]
    rfl

/-- C1 witness: the amended scan property evaluated at chainState. -/
theorem C1_refinement_scan_witness :
    (⟨2, 3, "Refinement (uncertainty sampling)"⟩ : Matchup).leftId ≤
      (⟨2, 3, "Refinement (uncertainty sampling)"⟩ : Matchup).rightId ∧
    ∃ p, p ∈ allPairs (refinePool (sortedClusters chainState)) ∧
      p.1.cluster_id < p.2.cluster_id ∧
      (⟨2, 3, "Refinement (uncertainty sampling)"⟩ : Matchup) = mkRefineMatchup p ∧
      (⟨2, 3, "Refinement (uncertainty sampling)"⟩ : Matchup).leftId =
        min p.1.cluster_id p.2.cluster_id ∧
      (⟨2, 3, "Refinement (uncertainty sampling)"⟩ : Matchup).rightId =
        max p.1.cluster_id p.2.cluster_id ∧
      ∀ q ∈ allPairs (refinePool (sortedClusters chainState)),
        pairScore q.1 q.2 ≤ pairScore p.1 p.2 + TOL :=
  C1_refinement_scan chainState ⟨2, 3, "Refinement (uncertainty sampling)"⟩
    (of_decide_eq_true (by with_unfolding_all rfl))
    (of_decide_eq_true (by with_unfolding_all rfl))
    (of_decide_eq_true (by with_unfolding_all rfl))
    (of_decide_eq_true (by with_unfolding_all rfl))
    (of_decide_eq_true (by with_unfolding_all rfl))

/-- C4: the refinement pair comes from the candidate pool: when at least two
candidates (top-pool members or clusters with games < 2) exist, the pool is
exactly the candidate set and both returned clusters are candidates; otherwise
the pool falls back to the full cluster set. -/
theorem C4_candidate_pool (state : StepCState) (m : Matchup)
    (hdone : state.done = false)
    (hlen : 2 ≤ state.clusters.length)
    (hnodup : (state.clusters.map StepCCluster.cluster_id).Nodup)
    (hnw : ¬ warmupActive state)
    (hm : pickNextMatch state = some m) :
    ∃ a b, a ∈ refinePool (sortedClusters state) ∧
      b ∈ refinePool (sortedClusters state) ∧
      a.cluster_id < b.cluster_id ∧
      m.leftId = a.cluster_id ∧ m.rightId = b.cluster_id ∧
      a ∈ state.clusters ∧ b ∈ state.clusters ∧
      (2 ≤ (candidateClusters (sortedClusters state)).length →
        refinePool (sortedClusters state) = candidateClusters (sortedClusters state) ∧
        (a.cluster_id ∈ topIds (sortedClusters state) ∨ a.games < 2) ∧
        (b.cluster_id ∈ topIds (sortedClusters state) ∨ b.games < 2)) ∧
      ((candidateClusters (sortedClusters state)).length < 2 →
        refinePool (sortedClusters state) = sortedClusters state) := by
  rw [pickNextMatch_eq_refine state hdone hlen hnw] at hm
  have hstrict := refinePool_pairwise (sortedClusters state)
    (sortedClusters_strict state hnodup)
  obtain ⟨p, hp, hb, hlt, -⟩ := refinePick_spec _ hstrict m hm
  obtain ⟨hp1, hp2⟩ := mem_allPairs hp
  refine ⟨p.1, p.2, hp1, hp2, hlt, ?_, ?_, ?_, ?_, ?_, ?_⟩
  · rw [hb]
    exact (min_eq_left hlt.le).symm ▸ rfl
  · rw [hb]
    exact (max_eq_right hlt.le).symm ▸ rfl
  · exact (sortedClusters_perm state).subset (refinePool_subset _ p.1 hp1)
  · exact (sortedClusters_perm state).subset (refinePool_subset _ p.2 hp2)
  · intro h2
    have hpool : refinePool (sortedClusters state) =
        candidateClusters (sortedClusters state) := by
      simp only [refinePool]
      rw [if_pos h2]
    refine ⟨hpool, ?_, ?_⟩
    · have := hp1
      rw [hpool] at this
      have hmem := (List.mem_filter.mp this).2
      simpa using hmem
    · have := hp2
      rw [hpool] at this
      have hmem := (List.mem_filter.mp this).2
      simpa using hmem
  · intro h2
    simp only [refinePool]
    rw [if_neg (by omega)]

/-- C4 witness: the candidate-pool property evaluated at chainState. -/
theorem C4_candidate_pool_witness :
    ∃ a b, a ∈ refinePool (sortedClusters chainState) ∧
      b ∈ refinePool (sortedClusters chainState) ∧
      a.cluster_id < b.cluster_id ∧
      (⟨2, 3, "Refinement (uncertainty sampling)"⟩ : Matchup).leftId = a.cluster_id ∧
      (⟨2, 3, "Refinement (uncertainty sampling)"⟩ : Matchup).rightId = b.cluster_id ∧
      a ∈ chainState.clusters ∧ b ∈ chainState.clusters ∧
      (2 ≤ (candidateClusters (sortedClusters chainState)).length →
        refinePool (sortedClusters chainState) =
          candidateClusters (sortedClusters chainState) ∧
        (a.cluster_id ∈ topIds (sortedClusters chainState) ∨ a.games < 2) ∧
        (b.cluster_id ∈ topIds (sortedClusters chainState) ∨ b.games < 2)) ∧
      ((candidateClusters (sortedClusters chainState)).length < 2 →
        refinePool (sortedClusters chainState) = sortedClusters chainState) :=
  C4_candidate_pool chainState ⟨2, 3, "Refinement (uncertainty sampling)"⟩
    (of_decide_eq_true (by with_unfolding_all rfl))
    (of_decide_eq_true (by with_unfolding_all rfl))
    (of_decide_eq_true (by with_unfolding_all rfl))
    (of_decide_eq_true (by with_unfolding_all rfl))
    (of_decide_eq_true (by with_unfolding_all rfl))

/-- C10: every returned matchup is well-formed: the two slots carry different
cluster ids, and both ids belong to clusters present in the state. -/
theorem C10_wellformed (state : StepCState) (m : Matchup)
    (hnodup : (state.clusters.map StepCCluster.cluster_id).Nodup)
    (hm : pickNextMatch state = some m) :
    m.leftId ≠ m.rightId ∧
    m.leftId ∈ state.clusters.map StepCCluster.cluster_id ∧
    m.rightId ∈ state.clusters.map StepCCluster.cluster_id := by
  obtain ⟨hdone, hlen⟩ := pickNextMatch_some_inv state m hm
  by_cases hw : warmupActive state
  · rcases hf : (sortedClusters state).filter (fun c => decide (c.games ≤ 0))
      with _ | ⟨focus, rest⟩
    · exfalso
      rcases hw.1 with ⟨c, hc, hg⟩
      have hc' : c ∈ sortedClusters state := (sortedClusters_perm state).symm.subset hc
      have := List.filter_eq_nil_iff.mp hf c hc'
      simp [hg] at this
    · rw [pickNextMatch_eq_warmup state hdone hlen focus rest hf hw.2] at hm
      obtain ⟨b, hbmem, hbne, hmk, -⟩ := warmupPick_spec _ _ _ hm
      have hfocus : focus ∈ state.clusters := by
        have h1 : focus ∈ (sortedClusters state).filter (fun c => decide (c.games ≤ 0)) := by
          rw [hf]; exact List.mem_cons_self focus rest
        exact (sortedClusters_perm state).subset (List.mem_filter.mp h1).1
      have hbcl : b ∈ state.clusters := (sortedClusters_perm state).subset hbmem
      subst hmk
      refine ⟨fun hc => hbne hc.symm, ?_, ?_⟩
      · exact List.mem_map.mpr ⟨focus, hfocus, rfl⟩
      · exact List.mem_map.mpr ⟨b, hbcl, rfl⟩
  · rw [pickNextMatch_eq_refine state hdone hlen hw] at hm
    have hstrict := refinePool_pairwise (sortedClusters state)
      (sortedClusters_strict state hnodup)
    obtain ⟨p, hp, hb, hlt, -⟩ := refinePick_spec _ hstrict m hm
    obtain ⟨hp1, hp2⟩ := mem_allPairs hp
    have h1 : p.1 ∈ state.clusters :=
      (sortedClusters_perm state).subset (refinePool_subset _ p.1 hp1)
    have h2 : p.2 ∈ state.clusters :=
      (sortedClusters_perm state).subset (refinePool_subset _ p.2 hp2)
    subst hb
    refine ⟨?_, ?_, ?_⟩
    · simp only [mkRefineMatchup, min_eq_left hlt.le, max_eq_right hlt.le]
      exact ne_of_lt hlt
    · simp only [mkRefineMatchup, min_eq_left hlt.le]
      exact List.mem_map.mpr ⟨p.1, h1, rfl⟩
    · simp only [mkRefineMatchup, max_eq_right hlt.le]
      exact List.mem_map.mpr ⟨p.2, h2, rfl⟩

/-- C10 witness: the well-formedness property evaluated at the concrete
warm-up state. -/
theorem C10_wellformed_witness :
    (⟨1, 2, "Warm-up coverage"⟩ : Matchup).leftId ≠
      (⟨1, 2, "Warm-up coverage"⟩ : Matchup).rightId ∧
    (⟨1, 2, "Warm-up coverage"⟩ : Matchup).leftId ∈
      zeroWarmupState.clusters.map StepCCluster.cluster_id ∧
    (⟨1, 2, "Warm-up coverage"⟩ : Matchup).rightId ∈
      zeroWarmupState.clusters.map StepCCluster.cluster_id :=
  C10_wellformed zeroWarmupState ⟨1, 2, "Warm-up coverage"⟩
    (of_decide_eq_true (by with_unfolding_all rfl))
    (of_decide_eq_true (by with_unfolding_all rfl))

end StepC

namespace StepC

/-- C2 counterexample: with max_warmup_matches = 0 the condition named by the
claim (total_matches < max_warmup_matches) is false for a fresh two-cluster
state with unseen clusters, yet the selector still emits a warm-up matchup:
the source clamps the warm-up cap to at least one. -/
theorem C2_counterexample :
    pickNextMatch zeroWarmupState = some ⟨1, 2, "Warm-up coverage"⟩ ∧
    ¬ (zeroWarmupState.total_matches < zeroWarmupState.max_warmup_matches) ∧
    (∃ c ∈ zeroWarmupState.clusters, c.games = 0) ∧
    zeroWarmupState.done = false ∧
    2 ≤ zeroWarmupState.clusters.length := by
  refine ⟨?_, ?_, ?_, ?_, ?_⟩ <;> exact of_decide_eq_true (by with_unfolding_all rfl)

/-- C2 amended: for a live state with at least two clusters with distinct ids
and non-negative game counts, the warm-up branch is active exactly when some
cluster has games = 0 and total_matches < max(1, max_warmup_matches); when it
is active the selector emits the smallest-id unseen cluster in the left slot
against a baseline that is the highest-rated played cluster (ties by smallest
id) excluding the focus, or the largest-size cluster (ties by smallest id)
excluding the focus when no other cluster has played; otherwise the selector
runs the refinement scan. -/
theorem C2_warmup_characterization (state : StepCState)
    (hdone : state.done = false)
    (hlen : 2 ≤ state.clusters.length)
    (hnodup : (state.clusters.map StepCCluster.cluster_id).Nodup)
    (hg : ∀ c ∈ state.clusters, 0 ≤ c.games) :
    (warmupActive state ↔
      ((∃ c ∈ state.clusters, c.games = 0) ∧
        state.total_matches < max 1 state.max_warmup_matches)) ∧
    (warmupActive state →
      ∃ f b, pickNextMatch state =
          some ⟨f.cluster_id, b.cluster_id, "Warm-up coverage"⟩ ∧
        f ∈ state.clusters ∧ f.games = 0 ∧
        (∀ c ∈ state.clusters, c.games = 0 → f.cluster_id ≤ c.cluster_id) ∧
        b ∈ state.clusters ∧ b.cluster_id ≠ f.cluster_id ∧
        ((0 < b.games ∧
            ∀ c ∈ state.clusters, c.cluster_id ≠ f.cluster_id → 0 < c.games →
              c.elo < b.elo ∨ (b.elo = c.elo ∧ b.cluster_id ≤ c.cluster_id)) ∨
          ((∀ c ∈ state.clusters, c.cluster_id ≠ f.cluster_id → c.games = 0) ∧
            ∀ c ∈ state.clusters, c.cluster_id ≠ f.cluster_id →
              c.size < b.size ∨ (b.size = c.size ∧ b.cluster_id ≤ c.cluster_id)))) ∧
    (¬ warmupActive state →
      pickNextMatch state = refinePick (refinePool (sortedClusters state))) := by
  refine ⟨?_, ?_, pickNextMatch_eq_refine state hdone hlen⟩
  · constructor
    · rintro ⟨⟨c, hc, hle⟩, hlt⟩
      exact ⟨⟨c, hc, le_antisymm hle (hg c hc)⟩, hlt⟩
    · rintro ⟨⟨c, hc, heq⟩, hlt⟩
      exact ⟨⟨c, hc, le_of_eq heq⟩, hlt⟩
  · intro hw
    rcases hf : (sortedClusters state).filter (fun c => decide (c.games ≤ 0))
      with _ | ⟨focus, rest⟩
    · exfalso
      rcases hw.1 with ⟨c, hc, hgle⟩
      have hc' : c ∈ sortedClusters state := (sortedClusters_perm state).symm.subset hc
      have := List.filter_eq_nil_iff.mp hf c hc'
      simp [hgle] at this
    · have hpick := pickNextMatch_eq_warmup state hdone hlen focus rest hf hw.2
      obtain ⟨hfocus_mem, hfocus_p, hfocus_min⟩ :=
        head_filter_spec (sortedClusters state) (sortedClusters_sorted state) _ focus rest hf
      have hfocus_cl : focus ∈ state.clusters := (sortedClusters_perm state).subset hfocus_mem
      have hfocus_games : focus.games = 0 :=
        le_antisymm (by simpa using hfocus_p) (hg focus hfocus_cl)
      have hsome : (warmupPick (sortedClusters state) focus).isSome = true := by
        have hnodup' : ((sortedClusters state).map StepCCluster.cluster_id).Nodup :=
          (((sortedClusters_perm state).map StepCCluster.cluster_id).nodup_iff).mpr hnodup
        exact warmupPick_isSome _ _ (exists_ne_id _ hnodup'
          (by rw [sortedClusters_length]; exact hlen) focus.cluster_id)
      obtain ⟨m, hm⟩ := Option.isSome_iff_exists.mp hsome
      obtain ⟨b, hbmem, hbne, hmk, hbase⟩ := warmupPick_spec _ _ _ hm
      have hbcl : b ∈ state.clusters := (sortedClusters_perm state).subset hbmem
      refine ⟨focus, b, ?_, hfocus_cl, hfocus_games, ?_, hbcl, hbne, ?_⟩
      · rw [hpick, hm, hmk]
      · intro c hc hcg
        exact hfocus_min c ((sortedClusters_perm state).symm.subset hc)
          (by simp [hcg])
      · rcases hbase with ⟨hbpos, hbbest⟩ | ⟨hnoplay, hbsize⟩
        · refine Or.inl ⟨hbpos, ?_⟩
          intro c hc hne hcg
          rcases hbbest c ((sortedClusters_perm state).symm.subset hc) hne hcg
            with h1 | ⟨h1, h2⟩
          · exact Or.inl h1
          · exact Or.inr ⟨h1, h2⟩
        · refine Or.inr ⟨?_, ?_⟩
          · intro c hc hne
            exact le_antisymm
              (not_lt.mp (hnoplay c ((sortedClusters_perm state).symm.subset hc) hne))
              (hg c hc) |>.symm ▸ rfl
          · intro c hc hne
            rcases hbsize c ((sortedClusters_perm state).symm.subset hc) hne
              with h1 | ⟨h1, h2⟩
            · exact Or.inl h1
            · exact Or.inr ⟨h1, h2⟩

end StepC

namespace StepC

/-- C2 witness: the amended warm-up characterization evaluated at the concrete
zero-budget warm-up state. -/
theorem C2_warmup_characterization_witness :
    (warmupActive zeroWarmupState ↔
      ((∃ c ∈ zeroWarmupState.clusters, c.games = 0) ∧
        zeroWarmupState.total_matches < max 1 zeroWarmupState.max_warmup_matches)) ∧
    (warmupActive zeroWarmupState →
      ∃ f b, pickNextMatch zeroWarmupState =
          some ⟨f.cluster_id, b.cluster_id, "Warm-up coverage"⟩ ∧
        f ∈ zeroWarmupState.clusters ∧ f.games = 0 ∧
        (∀ c ∈ zeroWarmupState.clusters, c.games = 0 → f.cluster_id ≤ c.cluster_id) ∧
        b ∈ zeroWarmupState.clusters ∧ b.cluster_id ≠ f.cluster_id ∧
        ((0 < b.games ∧
            ∀ c ∈ zeroWarmupState.clusters, c.cluster_id ≠ f.cluster_id → 0 < c.games →
              c.elo < b.elo ∨ (b.elo = c.elo ∧ b.cluster_id ≤ c.cluster_id)) ∨
          ((∀ c ∈ zeroWarmupState.clusters, c.cluster_id ≠ f.cluster_id → c.games = 0) ∧
            ∀ c ∈ zeroWarmupState.clusters, c.cluster_id ≠ f.cluster_id →
              c.size < b.size ∨ (b.size = c.size ∧ b.cluster_id ≤ c.cluster_id)))) ∧
    (¬ warmupActive zeroWarmupState →
      pickNextMatch zeroWarmupState =
        refinePick (refinePool (sortedClusters zeroWarmupState))) :=
  C2_warmup_characterization zeroWarmupState
    (of_decide_eq_true (by with_unfolding_all rfl))
    (of_decide_eq_true (by with_unfolding_all rfl))
    (of_decide_eq_true (by with_unfolding_all rfl))
    (of_decide_eq_true (by with_unfolding_all rfl))

end StepC

namespace FinalPool

open StepC in
/-- Unfolding of the image comparator relation: rank ascending, ties by path. -/
lemma sortRel_imageSort_iff (a b : StepBImage) :
    sortRel imageSort a b ↔
      (a.rank_in_cluster < b.rank_in_cluster ∨
        (a.rank_in_cluster = b.rank_in_cluster ∧ a.path ≤ b.path)) := by
  simp only [sortRel, imageSort, localeCompare]
  split_ifs with h1 h2 h3
  · constructor
    · intro hle
      refine Or.inl (lt_of_le_of_ne (by linarith) ?_)
      intro hc
      exact h1 (by rw [hc]; ring)
    · rintro (hlt | ⟨heq, -⟩)
      · linarith
      · exact absurd (by rw [heq]; ring : a.rank_in_cluster - b.rank_in_cluster = 0) h1
  · have heq : a.rank_in_cluster = b.rank_in_cluster := by
      push_neg at h1
      linarith
    constructor
    · intro _
      exact Or.inr ⟨heq, le_of_lt h2⟩
    · intro _
      norm_num
  · have heq : a.rank_in_cluster = b.rank_in_cluster := by
      push_neg at h1
      linarith
    constructor
    · intro hc
      norm_num at hc
    · rintro (hlt | ⟨-, hle⟩)
      · rw [heq] at hlt
        exact absurd hlt (lt_irrefl _)
      · exact absurd h3 (not_lt.mpr hle)
  · have heq : a.rank_in_cluster = b.rank_in_cluster := by
      push_neg at h1
      linarith
    constructor
    · intro _
      exact Or.inr ⟨heq, not_lt.mp h3⟩
    · intro _
      norm_num

open StepC in
/-- Transitivity of the image comparator relation. -/
lemma sortRel_imageSort_trans (a b c : StepBImage)
    (hab : sortRel imageSort a b) (hbc : sortRel imageSort b c) :
    sortRel imageSort a c := by
  rw [sortRel_imageSort_iff] at hab hbc ⊢
  rcases hab with h1 | ⟨h1, h1'⟩ <;> rcases hbc with h2 | ⟨h2, h2'⟩
  · exact Or.inl (lt_trans h1 h2)
  · exact Or.inl (by rw [← h2]; exact h1)
  · exact Or.inl (by rw [h1]; exact h2)
  · exact Or.inr ⟨h1.trans h2, le_trans h1' h2'⟩

open StepC in
/-- Totality of the image comparator relation. -/
lemma sortRel_imageSort_total (a b : StepBImage) :
    sortRel imageSort a b ∨ sortRel imageSort b a := by
  rw [sortRel_imageSort_iff, sortRel_imageSort_iff]
  rcases lt_trichotomy a.rank_in_cluster b.rank_in_cluster with h | h | h
  · exact Or.inl (Or.inl h)
  · rcases le_total a.path b.path with hp | hp
    · exact Or.inl (Or.inr ⟨h, hp⟩)
    · exact Or.inr (Or.inr ⟨h.symm, hp⟩)
  · exact Or.inr (Or.inl h)

/-- The per-cluster rows are sorted by rank_in_cluster ascending. -/
lemma clusterRows_sorted (images : List StepBImage) (cid : ℚ) :
    (clusterRows images cid).Pairwise
      (fun x y => x.rank_in_cluster ≤ y.rank_in_cluster) := by
  refine (StepC.jsSort_sorted imageSort sortRel_imageSort_trans
    sortRel_imageSort_total _).imp ?_
  intro a b h
  rcases (sortRel_imageSort_iff a b).mp h with h1 | ⟨h1, -⟩
  · exact le_of_lt h1
  · exact le_of_eq h1

/-- The per-cluster rows are a permutation of the images of that cluster. -/
lemma clusterRows_perm (images : List StepBImage) (cid : ℚ) :
    (clusterRows images cid).Perm
      (images.filter fun r => decide (r.cluster_id = cid)) :=
  StepC.jsSort_perm imageSort _

/-- Every stored keep count is non-negative. -/
lemma keepByCluster_nonneg (cs : List StepCCluster) (cid : ℚ) (k : Int)
    (h : keepByCluster cs cid = some k) : 0 ≤ k := by
  unfold keepByCluster at h
  rcases hf : cs.reverse.find? (fun c => decide (c.cluster_id = cid)) with _ | c
  · rw [hf] at h; cases h
  · rw [hf] at h
    have hk : max 0 c.keep_count = k := Option.some.inj (by simpa using h)
    rw [← hk]
    exact le_max_left _ _

/-- A stored keep count comes from a record of the cluster, clamped at 0. -/
lemma keepByCluster_some (cs : List StepCCluster) (cid : ℚ) (k : Int)
    (h : keepByCluster cs cid = some k) :
    ∃ c ∈ cs, c.cluster_id = cid ∧ k = max 0 c.keep_count := by
  unfold keepByCluster at h
  rcases hf : cs.reverse.find? (fun c => decide (c.cluster_id = cid)) with _ | c
  · rw [hf] at h; cases h
  · rw [hf] at h
    have hc1 := List.find?_some hf
    have hc2 := List.mem_of_find?_eq_some hf
    refine ⟨c, List.mem_reverse.mp hc2, by simpa using hc1, ?_⟩
    exact (Option.some.inj (by simpa using h)).symm

/-- A missing keep record means no cluster record carries this id. -/
lemma keepByCluster_none (cs : List StepCCluster) (cid : ℚ)
    (h : keepByCluster cs cid = none) :
    ∀ c ∈ cs, c.cluster_id ≠ cid := by
  unfold keepByCluster at h
  have hf : cs.reverse.find? (fun c => decide (c.cluster_id = cid)) = none := by
    rcases hf : cs.reverse.find? (fun c => decide (c.cluster_id = cid)) with _ | c
    · exact hf
    · rw [hf] at h
      cases h
  intro c hc
  have := List.find?_eq_none.mp hf c (List.mem_reverse.mpr hc)
  simpa using this

/-- C5: for a cluster whose stored keep count lies within [0, number of that
cluster's rows], the final pool accepts exactly the first keep_count rows of
the rank-ascending sorted rows and rejects exactly the remainder; the sorted
rows are a permutation of the cluster's images. -/
theorem C5_final_pool_partition (cs : List StepCCluster) (images : List StepBImage)
    (cid : ℚ) (kc : Int)
    (hk : keepByCluster cs cid = some kc)
    (hle : kc ≤ (clusterRows images cid).length) :
    acceptedRows cs images cid = (clusterRows images cid).take kc.toNat ∧
    rejectedRows cs images cid = (clusterRows images cid).drop kc.toNat ∧
    (acceptedRows cs images cid).length = kc.toNat ∧
    acceptedRows cs images cid ++ rejectedRows cs images cid = clusterRows images cid ∧
    (clusterRows images cid).Pairwise
      (fun x y => x.rank_in_cluster ≤ y.rank_in_cluster) ∧
    (clusterRows images cid).Perm
      (images.filter fun r => decide (r.cluster_id = cid)) := by
  have h0 : 0 ≤ kc := keepByCluster_nonneg cs cid kc hk
  have hkf : keepFinal cs images cid = kc := by
    unfold keepFinal
    rw [hk]
    simp only [Option.getD_some]
    rw [min_eq_right hle]
    exact max_eq_right h0
  refine ⟨?_, ?_, ?_, ?_, clusterRows_sorted images cid, clusterRows_perm images cid⟩
  · unfold acceptedRows
    rw [hkf]
  · unfold rejectedRows
    rw [hkf]
  · unfold acceptedRows
    rw [hkf, List.length_take]
    omega
  · unfold acceptedRows rejectedRows
    exact List.take_append_drop _ _

/-- C5 witness: the partition property evaluated at the concrete demo album,
cluster 5, whose stored keep count is 2 out of 3 rows. -/
theorem C5_final_pool_partition_witness :
    acceptedRows demoClusters demoImages 5 = (clusterRows demoImages 5).take (Int.toNat 2) ∧
    rejectedRows demoClusters demoImages 5 = (clusterRows demoImages 5).drop (Int.toNat 2) ∧
    (acceptedRows demoClusters demoImages 5).length = Int.toNat 2 ∧
    acceptedRows demoClusters demoImages 5 ++ rejectedRows demoClusters demoImages 5 =
      clusterRows demoImages 5 ∧
    (clusterRows demoImages 5).Pairwise
      (fun x y => x.rank_in_cluster ≤ y.rank_in_cluster) ∧
    (clusterRows demoImages 5).Perm
      (demoImages.filter fun r => decide (r.cluster_id = 5)) :=
  C5_final_pool_partition demoClusters demoImages 5 2
    (of_decide_eq_true (by with_unfolding_all rfl))
    (of_decide_eq_true (by with_unfolding_all rfl))

/-- C9: the final-pool derivation is total and defensive: for every keep-count
situation (negative, oversized or missing record) the accepted rows are the
first min(row count, max(0, stored keep count)) rows, accepted and rejected
rows concatenate to exactly the sorted cluster rows, and those rows are a
permutation of the cluster's images; stored counts are the last matching
record's keep_count clamped at 0, and a missing record means no record had
the id. -/
theorem C9_final_pool_total (cs : List StepCCluster) (images : List StepBImage)
    (cid : ℚ) :
    acceptedRows cs images cid ++ rejectedRows cs images cid = clusterRows images cid ∧
    (clusterRows images cid).Perm
      (images.filter fun r => decide (r.cluster_id = cid)) ∧
    (acceptedRows cs images cid).length =
      min (clusterRows images cid).length
        (Int.toNat (max 0 ((keepByCluster cs cid).getD 0))) ∧
    (∀ k, keepByCluster cs cid = some k →
      ∃ c ∈ cs, c.cluster_id = cid ∧ k = max 0 c.keep_count) ∧
    (keepByCluster cs cid = none → ∀ c ∈ cs, c.cluster_id ≠ cid) := by
  refine ⟨?_, clusterRows_perm images cid, ?_,
    fun k hk => keepByCluster_some cs cid k hk, keepByCluster_none cs cid⟩
  · unfold acceptedRows rejectedRows
    exact List.take_append_drop _ _
  · have h0 : 0 ≤ (keepByCluster cs cid).getD 0 := by
      rcases hf : keepByCluster cs cid with _ | k
      · simp
      · simpa using keepByCluster_nonneg cs cid k hf
    unfold acceptedRows
    rw [List.length_take]
    simp only [keepFinal]
    rw [max_eq_right (le_min (Int.natCast_nonneg _) h0), max_eq_right h0]
    omega

/-- C9 witness: the totality property evaluated at the concrete demo album,
cluster 4, whose record carries a negative keep count. -/
theorem C9_final_pool_total_witness :
    acceptedRows demoClusters demoImages 4 ++ rejectedRows demoClusters demoImages 4 =
      clusterRows demoImages 4 ∧
    (clusterRows demoImages 4).Perm
      (demoImages.filter fun r => decide (r.cluster_id = 4)) ∧
    (acceptedRows demoClusters demoImages 4).length =
      min (clusterRows demoImages 4).length
        (Int.toNat (max 0 ((keepByCluster demoClusters 4).getD 0))) ∧
    (∀ k, keepByCluster demoClusters 4 = some k →
      ∃ c ∈ demoClusters, c.cluster_id = 4 ∧ k = max 0 c.keep_count) ∧
    (keepByCluster demoClusters 4 = none → ∀ c ∈ demoClusters, c.cluster_id ≠ 4) :=
  C9_final_pool_total demoClusters demoImages 4

end FinalPool

namespace StepC

/-- C8 witness: the explicit-state translation evaluated at the concrete
warm-up state. -/
theorem C8_pure_witness :
    (pickNextMatchSt zeroWarmupState).2 = zeroWarmupState ∧
    (pickNextMatchSt zeroWarmupState).2.clusters = zeroWarmupState.clusters ∧
    (pickNextMatchSt zeroWarmupState).1 = pickNextMatch zeroWarmupState :=
  C8_pure zeroWarmupState

end StepC
